import Mathlib

/-!
Verification development for the static-file dispatch layer of the node
integration (`packages/integrations/node/src/http-server.ts`) together with
the trailing-slash configuration schema
(`packages/astro/src/core/config/schema.ts`).

The TypeScript source is shallowly embedded: JavaScript strings become Lean
`String`s, the nullable values of the source become `Option`s, the mutable
response object becomes an explicit trace of actions, and the event callbacks
registered on the `send` stream become a function of the stream's outcome.
Platform primitives (ECMAScript `encodeURI` / `decodeURI`, WHATWG `URL`,
Node `path.join`) are not part of the repository; they are modelled from
their standards, and each such model carries a doc comment saying so.
-/

/-- Model of JavaScript `String.prototype.split` with a single-character
separator, on the character list: splits at every occurrence of `sep`. -/
def splitOnChar (sep : Char) : List Char → List (List Char)
  | [] => [[]]
  | c :: rest =>
    let r := splitOnChar sep rest
    if c = sep then [] :: r
    else
      match r with
      | [] => [[c]]
      | h :: t => (c :: h) :: t

/-- Model of JavaScript `url.split(sep)` for a one-character separator. -/
def jsSplit (sep : Char) (s : String) : List String :=
  (splitOnChar sep s.toList).map String.mk

/-- Model of JavaScript `s.endsWith('/')`. -/
def endsWithSlash (s : String) : Bool :=
  match s.toList.getLast? with
  | some c => c = '/'
  | none => false

/-- Model of JavaScript `s.startsWith(pre)`: list-level prefix test. -/
def strStarts (pre s : String) : Bool :=
  pre.toList.isPrefixOf s.toList

/-- Model of JavaScript `s.includes(c)` for a single character. -/
def strHas (s : String) (c : Char) : Bool :=
  s.toList.contains c

/-- Model of JavaScript `s.slice(0, -1)`: drop the last character. -/
def sliceDropLast (s : String) : String :=
  String.mk s.toList.dropLast

/-- Model of JavaScript truthiness for a `string | undefined` value:
`undefined` and the empty string are falsy. -/
def jsTruthy : Option String → Bool
  | none => false
  | some s => !(s = "")

/-- The query suffix the listener appends to redirect locations:
`urlQuery ? "?" + urlQuery : ""` (http-server.ts lines 58 and 73). -/
def jsQuerySuffix (q : Option String) : String :=
  match q with
  | some s => if s = "" then "" else "?" ++ s
  | none => ""

/-- The validated trailing-slash policy: the three literals accepted by
`AstroConfigSchema.trailingSlash` (schema.ts lines 101-104). -/
inductive Policy
  | never
  | ignore
  | always
  deriving DecidableEq

/-- The string value carried by each policy literal. -/
def policyName : Policy → String
  | .never => "never"
  | .ignore => "ignore"
  | .always => "always"

/-- Embedding of the `switch (trailingSlash)` statement of the listener
(http-server.ts lines 55-79), for a well-typed policy.  Returns the redirect
the switch installs on the response, if any (`res.statusCode = 301` plus the
`Location` header), together with the final value of the `pathname` variable.
The `never` case falls through into the `ignore` block, so the pathname it
assigned for the redirect is overwritten by the shared rewrite-to-index
step; only the `Location` header keeps the slash-stripped value. -/
def trailingSwitch (p : Policy) (hasSlash isDirectory : Bool) (urlPath : String)
    (urlQuery : Option String) : Option (Nat × String) × String :=
  match p with
  | .never =>
    let redir :=
      if isDirectory && hasSlash then
        some (301, sliceDropLast urlPath ++ jsQuerySuffix urlQuery)
      else none
    (redir, if isDirectory && !hasSlash then urlPath ++ "/index.html" else urlPath)
  | .ignore =>
    (none, if isDirectory && !hasSlash then urlPath ++ "/index.html" else urlPath)
  | .always =>
    if !hasSlash then
      (some (301, urlPath ++ "/" ++ jsQuerySuffix urlQuery),
       urlPath ++ "/" ++ jsQuerySuffix urlQuery)
    else (none, urlPath)

/-- Embedding of lines 51-79 of http-server.ts at the JavaScript runtime
level, where `trailingSlash` is an arbitrary `string | undefined`: a falsy
value is first replaced by `"ignore"` (line 51-52), and a value matching no
`case` label leaves the `pathname` variable unassigned, which is modelled by
returning `none` for the pathname. -/
def trailingSwitchRaw (ts : Option String) (hasSlash isDirectory : Bool)
    (urlPath : String) (urlQuery : Option String) :
    Option (Nat × String) × Option String :=
  let t := match ts with
    | none => "ignore"
    | some s => if s = "" then "ignore" else s
  if t = "never" then
    let redir :=
      if isDirectory && hasSlash then
        some (301, sliceDropLast urlPath ++ jsQuerySuffix urlQuery)
      else none
    (redir, some (if isDirectory && !hasSlash then urlPath ++ "/index.html" else urlPath))
  else if t = "ignore" then
    (none, some (if isDirectory && !hasSlash then urlPath ++ "/index.html" else urlPath))
  else if t = "always" then
    if !hasSlash then
      (some (301, urlPath ++ "/" ++ jsQuerySuffix urlQuery),
       some (urlPath ++ "/" ++ jsQuerySuffix urlQuery))
    else (none, some urlPath)
  else (none, none)

/-- The tagged routing outcome of the trailing-slash engine, as described by
the specification's data model. -/
inductive RouteDecision
  | serve (path : String)
  | rewriteToIndex (path : String)
  | redirect (location : String) (status : Nat)
  deriving DecidableEq

/-- The `RouteDecision` the embedded switch produces: a redirect when the
switch installed one, otherwise a rewrite when the pathname was changed,
otherwise serve-as-is. -/
def routeDecision (p : Policy) (hasSlash isDirectory : Bool) (urlPath : String)
    (urlQuery : Option String) : RouteDecision :=
  match trailingSwitch p hasSlash isDirectory urlPath urlQuery with
  | (some (st, loc), _) => .redirect loc st
  | (none, pn) => if pn = urlPath then .serve pn else .rewriteToIndex pn

/-- The decision table exactly as the specification claim words it: under
`never`, a directory with a trailing slash is redirected (301) to the
slash-stripped form and a directory lacking a slash is rewritten to
`<path>/index.html`; under `ignore`, only the directory-without-slash case
is rewritten; under `always`, a path lacking a slash is redirected to the
slash-appended form; all other cases serve as-is. -/
def routeDecisionSpec (p : Policy) (hasSlash isDirectory : Bool) (urlPath : String)
    (urlQuery : Option String) : RouteDecision :=
  match p with
  | .never =>
    if isDirectory && hasSlash then
      .redirect (sliceDropLast urlPath ++ jsQuerySuffix urlQuery) 301
    else if isDirectory && !hasSlash then
      .rewriteToIndex (urlPath ++ "/index.html")
    else .serve urlPath
  | .ignore =>
    if isDirectory && !hasSlash then .rewriteToIndex (urlPath ++ "/index.html")
    else .serve urlPath
  | .always =>
    if !hasSlash then .redirect (urlPath ++ "/" ++ jsQuerySuffix urlQuery) 301
    else .serve urlPath

/-- Normalization step of Node `path.posix.join`: empty and `"."` segments
are dropped and a `".."` segment removes the segment before it (for an
absolute path, a `".."` at the root is dropped). -/
def joinSegs (segs : List String) : List String :=
  segs.foldl
    (fun acc seg =>
      if seg = "" then acc
      else if seg = "." then acc
      else if seg = ".." then acc.dropLast
      else acc ++ [seg])
    []

/-- Modelled from the spec: Node `path.join` (posix) for an absolute first
argument — the two arguments are concatenated with a separator and the
result is normalized, so `".."` segments climb out of the first argument
(§4.1 notes the naive join does not defend against traversal). -/
def pathJoin (a b : String) : String :=
  "/" ++ String.intercalate "/" (joinSegs (jsSplit '/' a ++ jsSplit '/' b))

/-- The candidate filesystem path the listener checks with `lstatSync`:
`path.join(fileURLToPath(client), removeBase(urlPath))` (http-server.ts
line 42), with the client root already converted to a plain path. -/
def resolvedCandidate (clientRoot : String) (removeBase : String → String)
    (urlPath : String) : String :=
  pathJoin clientRoot (removeBase urlPath)

/-- The mutually exclusive outcome the `send` stream reports for one request,
modelled from the spec (§4.3); `send` is an external library.  `fileOk` is
file-found (the `file` event, then `headers`, then the body streams to
completion); `fileErr` is a stream error after the `file` event fired;
`miss` is an `error` event with no candidate file identified; `dir` is the
`directory` event. -/
inductive SendOutcome
  | miss
  | dir
  | fileOk
  | fileErr
  deriving DecidableEq

/-- The per-server environment of the listener: the client root directory,
the configured base-removal function and assets directory name, the platform
URL canonicalization used by `parsePathname`, the filesystem's answer to the
`lstatSync(..).isDirectory()` probe (`false` when `lstatSync` throws, lines
46-49), and the outcome `send` reports for a given uri. -/
structure Env where
  clientRoot : String
  removeBase : String → String
  assets : String
  canon : String → Option String
  isDir : String → Bool
  send : String → SendOutcome

/-- Embedding of `isImmutableAsset` (http-server.ts lines 34-37): the
pathname starts with `"/" + assets + "/"`. -/
def isImmutableAsset (assets pathname : String) : Bool :=
  strStarts ("/" ++ assets ++ "/") pathname

/-- One observable step the listener takes on the request's response object
or control flow.  `policyRedirect` is the synchronous
`res.statusCode = 301; res.setHeader('Location', ..)` pair installed by the
trailing-slash switch; `respond` is a `writeHead` plus `end` with a body;
`redirectRespond` is the `directory` handler's 301-and-end; `streamBody` is
the successful streaming of a file body; `sendFile` records that the
streamer was asked to look up a uri (with its dotfile-allow flag);
`callHandler` is the delegation to the external rendering handler. -/
inductive Act
  | policyRedirect (status : Nat) (location : String)
  | sendFile (uri : String) (dotAllow : Bool)
  | setCacheControl
  | respond (status : Nat) (body : String)
  | streamBody
  | redirectRespond (location : String)
  | logError
  | callHandler
  deriving DecidableEq

/-- Splits `req.url` as line 41 does: `const [urlPath, urlQuery] = req.url.split('?')`,
keeping the first part and the (possibly absent) second part. -/
def splitUrl (url : String) : String × Option String :=
  let parts := jsSplit '?' url
  (parts.headD "", parts.get? 1)

/-- The `Location` value computed by the `directory` event handler
(http-server.ts lines 116-129) from the raw request url. -/
def dirLocation (url : String) : String :=
  if strHas url '?' then
    let parts := jsSplit '?' url
    parts.headD "" ++ "/?" ++ parts.getD 1 ""
  else url ++ "/"

/-- The actions of the event handlers registered on the `send` stream
(http-server.ts lines 93-133), as a function of the stream's outcome: a miss
forwards to the rendering handler; a stream error after a file was
identified logs and responds 500; a directory responds 301; a served file
gets the immutable cache header exactly when `isImmutableAsset(encodedURI)`
holds, before the body streams. -/
def streamActs (env : Env) (encodedURI : String) (dotAllow : Bool) (reqUrl : String) :
    List Act :=
  Act.sendFile encodedURI dotAllow ::
    match env.send encodedURI with
    | .miss => [Act.callHandler]
    | .dir => [Act.redirectRespond (dirLocation reqUrl)]
    | .fileOk =>
      (if isImmutableAsset env.assets encodedURI then [Act.setCacheControl] else []) ++
        [Act.streamBody]
    | .fileErr => [Act.logError, Act.respond 500 "Internal server error"]

/-- The redirect installed on the response by the trailing-slash switch for
this request, if any (http-server.ts lines 55-79). -/
def redirOf (env : Env) (p0 : Option Policy) (url : String) : Option (Nat × String) :=
  let (urlPath, urlQuery) := splitUrl url
  let isDirectory := env.isDir (resolvedCandidate env.clientRoot env.removeBase urlPath)
  (trailingSwitch (p0.getD .ignore) (endsWithSlash urlPath) isDirectory urlPath urlQuery).1

/-- The trace of the redirect installation, when the switch installed one. -/
def policyActs (env : Env) (p0 : Option Policy) (url : String) : List Act :=
  match redirOf env p0 url with
  | some (st, loc) => [Act.policyRedirect st loc]
  | none => []

/-- The pathname handed to `parsePathname` (http-server.ts lines 80-84): the
switch's pathname with the base removed again, with the query string
re-appended when it is truthy and the pathname does not already contain a
question mark. -/
def finalPathname (env : Env) (p0 : Option Policy) (url : String) : String :=
  let (urlPath, urlQuery) := splitUrl url
  let isDirectory := env.isDir (resolvedCandidate env.clientRoot env.removeBase urlPath)
  let pn0 := (trailingSwitch (p0.getD .ignore) (endsWithSlash urlPath) isDirectory
    urlPath urlQuery).2
  let pn1 := env.removeBase pn0
  if jsTruthy urlQuery && !(strHas pn1 '?') then pn1 ++ "?" ++ urlQuery.getD ""
  else pn1

/-- Embedding of the listener (http-server.ts lines 39-137) as the trace of
actions it takes for one request: no url forwards straight to the rendering
handler; a failed canonicalization responds 400; otherwise the `send` stream
is created on the canonical uri (dotfiles allowed only under
`/.well-known/`) and its handlers run. -/
def listener (env : Env) (p0 : Option Policy) (url? : Option String) : List Act :=
  match url? with
  | none => [Act.callHandler]
  | some url =>
    match env.canon (finalPathname env p0 url) with
    | none => policyActs env p0 url ++ [Act.respond 400 "Bad request."]
    | some encodedURI =>
      policyActs env p0 url ++
        streamActs env encodedURI (strStarts "/.well-known/" (finalPathname env p0 url)) url

/-- An action that initiates-and-terminates the response or hands it off:
a direct respond-and-end, a completed file stream, the directory handler's
301-and-end, or the delegation to the rendering handler. -/
def isTerminalAct : Act → Bool
  | .respond _ _ => true
  | .streamBody => true
  | .redirectRespond _ => true
  | .callHandler => true
  | _ => false

/-- The status code explicitly installed on the response before the first
delegation to the rendering handler: `none` when the handler is never
reached or the response was untouched when it was. -/
def statusBefore (cur : Option Nat) : List Act → Option Nat
  | [] => none
  | Act.callHandler :: _ => cur
  | Act.policyRedirect st _ :: rest => statusBefore (some st) rest
  | Act.respond st _ :: rest => statusBefore (some st) rest
  | _ :: rest => statusBefore cur rest

/-- The response status already set when the rendering handler is invoked. -/
def statusAtHandler (l : List Act) : Option Nat :=
  statusBefore none l

/-- Uppercase hexadecimal digit for a value below 16. -/
def hexDigitChar (n : Nat) : Char :=
  if n < 10 then Char.ofNat (48 + n) else Char.ofNat (55 + n)

/-- Value of a hexadecimal digit character, `none` otherwise. -/
def hexVal (c : Char) : Option Nat :=
  if 48 ≤ c.toNat ∧ c.toNat ≤ 57 then some (c.toNat - 48)
  else if 65 ≤ c.toNat ∧ c.toNat ≤ 70 then some (c.toNat - 55)
  else if 97 ≤ c.toNat ∧ c.toNat ≤ 102 then some (c.toNat - 87)
  else none

/-- The ECMA-262 `uriReserved` set together with `'#'`: characters
`encodeURI` leaves alone and whose escapes `decodeURI` refuses to decode. -/
def uriReservedHash (c : Char) : Bool :=
  c == ';' || c == '/' || c == '?' || c == ':' || c == '@' || c == '&' || c == '=' ||
  c == '+' || c == '$' || c == ',' || c == '#'

/-- The non-alphanumeric members of the ECMA-262 `uriUnescaped` set. -/
def uriMarkExtra (c : Char) : Bool :=
  c == '-' || c == '_' || c == '.' || c == '!' || c == '~' || c == '*' ||
  c == Char.ofNat 39 || c == '(' || c == ')'

/-- UTF-8 bytes of a code point, as the ECMA-262 Encode operation emits
them. -/
def utf8Bytes (n : Nat) : List Nat :=
  if n < 128 then [n]
  else if n < 2048 then [192 + n / 64, 128 + n % 64]
  else if n < 65536 then [224 + n / 4096, 128 + (n / 64) % 64, 128 + n % 64]
  else [240 + n / 262144, 128 + (n / 4096) % 64, 128 + (n / 64) % 64, 128 + n % 64]

/-- A percent escape `%XY` for one byte. -/
def pctByte (b : Nat) : List Char :=
  ['%', hexDigitChar (b / 16), hexDigitChar (b % 16)]

/-- Modelled from the spec: ECMA-262 `encodeURI` on one character — kept
when it belongs to `uriUnescaped` or `uriReserved` or is `'#'`, otherwise
replaced by the percent escapes of its UTF-8 bytes. -/
def encChar (c : Char) : List Char :=
  if c.isAlphanum || uriMarkExtra c || uriReservedHash c then [c]
  else (utf8Bytes c.toNat).flatMap pctByte

/-- Modelled from the spec: ECMA-262 `encodeURI` over a character list. -/
def encList (l : List Char) : List Char :=
  l.flatMap encChar

/-- Reads one UTF-8 continuation byte written as a percent escape, returning
its six payload bits and the rest of the input. -/
def contByte (l : List Char) : Option (Nat × List Char) :=
  match l with
  | c :: h1 :: h2 :: r =>
    if c = '%' then
      match hexVal h1, hexVal h2 with
      | some a, some b =>
        if 128 ≤ 16 * a + b ∧ 16 * a + b < 192 then some ((16 * a + b) % 64, r)
        else none
      | _, _ => none
    else none
  | _ => none

/-- One step of the ECMA-262 Decode operation with `uriReserved` plus `'#'`
preserved: consumes a maximal escape (or one plain character) from the front
of the input and returns the characters it contributes to the output
together with the remaining input.  A percent escape of an ASCII byte is
decoded unless the character is in the preserved set, in which case the
original three characters are kept; a leading byte above `0x7F` must begin a
well-formed minimal UTF-8 sequence of further escapes, which decodes to one
character (such a character is never in the preserved set, and the guard
mirrors the standard's membership test); any malformed escape fails. -/
def decStep : List Char → Option (List Char × List Char)
  | [] => none
  | c :: rest =>
    if c = '%' then
      match rest with
      | h1 :: h2 :: r =>
        match hexVal h1, hexVal h2 with
        | some a, some b =>
          if 16 * a + b < 128 then
            if uriReservedHash (Char.ofNat (16 * a + b)) then some ([c, h1, h2], r)
            else some ([Char.ofNat (16 * a + b)], r)
          else if 194 ≤ 16 * a + b ∧ 16 * a + b ≤ 223 then
            match contByte r with
            | some (x1, r1) =>
              if uriReservedHash (Char.ofNat ((16 * a + b) % 32 * 64 + x1)) then none
              else some ([Char.ofNat ((16 * a + b) % 32 * 64 + x1)], r1)
            | none => none
          else if 224 ≤ 16 * a + b ∧ 16 * a + b ≤ 239 then
            match contByte r with
            | some (x1, r1) =>
              match contByte r1 with
              | some (x2, r2) =>
                if (16 * a + b) % 16 * 4096 + x1 * 64 + x2 < 2048 ∨
                    (55296 ≤ (16 * a + b) % 16 * 4096 + x1 * 64 + x2 ∧
                      (16 * a + b) % 16 * 4096 + x1 * 64 + x2 ≤ 57343) then none
                else
                  if uriReservedHash
                      (Char.ofNat ((16 * a + b) % 16 * 4096 + x1 * 64 + x2)) then none
                  else some ([Char.ofNat ((16 * a + b) % 16 * 4096 + x1 * 64 + x2)], r2)
              | none => none
            | none => none
          else if 240 ≤ 16 * a + b ∧ 16 * a + b ≤ 244 then
            match contByte r with
            | some (x1, r1) =>
              match contByte r1 with
              | some (x2, r2) =>
                match contByte r2 with
                | some (x3, r3) =>
                  if (16 * a + b) % 8 * 262144 + x1 * 4096 + x2 * 64 + x3 < 65536 ∨
                      1114111 <
                        (16 * a + b) % 8 * 262144 + x1 * 4096 + x2 * 64 + x3 then none
                  else
                    if uriReservedHash
                        (Char.ofNat
                          ((16 * a + b) % 8 * 262144 + x1 * 4096 + x2 * 64 + x3)) then
                      none
                    else
                      some ([Char.ofNat
                        ((16 * a + b) % 8 * 262144 + x1 * 4096 + x2 * 64 + x3)], r3)
                | none => none
              | none => none
            | none => none
          else none
        | _, _ => none
      | _ => none
    else some ([c], rest)

/-- Modelled from the spec: ECMA-262 `decodeURI` — the Decode steps iterated
over the whole input, failing when any step fails, which the caller observes
as a thrown `URIError`.  The fuel argument is instantiated with the input
length; each step consumes at least one character. -/
def decList : Nat → List Char → Option (List Char)
  | _, [] => some []
  | 0, _ :: _ => none
  | fuel + 1, l =>
    match decStep l with
    | some (em, rest) => (decList fuel rest).map (fun tail => em ++ tail)
    | none => none

/-- Modelled from the spec: the pathname of the WHATWG URL built from the
request path over the server's base — the path is cut at the first query or
fragment delimiter; the percent normalization the spec ascribes to
canonicalization (§4.1) is performed by the decode/encode pair that follows.
Modelled for path-absolute inputs. -/
def urlPathnameOf (s : String) : String :=
  String.mk (s.toList.takeWhile (fun c => !(c == '?' || c == '#')))

/-- Embedding of `parsePathname` (http-server.ts lines 18-25):
`decodeURI(encodeURI(new URL(pathname, base).pathname))`, with `undefined`
(here `none`) when a step throws. -/
def parsePathnameM (p : String) : Option String :=
  (decList (encList (urlPathnameOf p).toList).length
    (encList (urlPathnameOf p).toList)).map String.mk

/-- The external inputs of the transport decision: the two environment
values `SERVER_CERT_PATH` and `SERVER_KEY_PATH` and the filesystem's answer
to `readFileSync` (`Except.error` models a thrown read error). -/
structure TLSEnv where
  certPath : Option String
  keyPath : Option String
  readFile : String → Except String String

/-- The server transport that gets constructed. -/
inductive Transport
  | https (key cert : String)
  | plain
  deriving DecidableEq

/-- Embedding of the transport choice at server construction (http-server.ts
lines 143-153): when both environment values are truthy, build a TLS server,
reading the key file and then the certificate file with any read error
propagating out of `createServer`; otherwise build a plain HTTP server. -/
def chooseTransport (e : TLSEnv) : Except String Transport :=
  if jsTruthy e.certPath && jsTruthy e.keyPath then
    match e.readFile (e.keyPath.getD "") with
    | .error msg => .error msg
    | .ok key =>
      match e.readFile (e.certPath.getD "") with
      | .error msg => .error msg
      | .ok cert => .ok (.https key cert)
  else .ok .plain

/-- A concrete environment for evaluating the listener: identity base
removal, a constant directory probe, a constant stream outcome and a chosen
canonicalization. -/
def mkEnv (dir : Bool) (o : SendOutcome) (c : String → Option String) : Env :=
  { clientRoot := "/srv/client", removeBase := fun s => s, assets := "_astro",
    canon := c, isDir := fun _ => dir, send := fun _ => o }

/-- A canonicalization that keeps the pathname unchanged. -/
def idCanon : String → Option String := fun s => some s

/-- Sanity evaluations of the embedded policy engine (spec §8 scenarios 1-3
and the `always`-on-a-file case). -/
example : routeDecision .ignore false true "/about" none = .rewriteToIndex "/about/index.html" := by decide

example : routeDecision .never true true "/docs/" none = .redirect "/docs" 301 := by decide

example : pathJoin "/srv/app/client" "/docs/" = "/srv/app/client/docs" := by decide

example : parsePathnameM "/caf%C3%A9" = some "/caf%C3%A9" := by decide

/-- Appending the index suffix always changes the pathname. -/
theorem append_index_ne (u : String) : u ++ "/index.html" ≠ u := by
  intro he
  have h2 : u.data ++ ("/index.html").data = u.data := congrArg String.data he
  have h3 := congrArg List.length h2
  have h4 : ("/index.html").data.length = 11 := rfl
  rw [List.length_append, h4] at h3
  omega

/-- C1: for every triple of policy, trailing-slash flag and directory flag
(and any path and query), the embedded trailing-slash engine yields exactly
one `RouteDecision`, and it is the one the claim's table prescribes: under
`never`, a directory with a slash is redirected (301) to the slash-stripped
form and a directory lacking a slash is rewritten to `<path>/index.html`;
under `ignore`, only the directory-without-slash case is rewritten; under
`always`, a path lacking a slash is redirected to the slash-appended form;
all other cases serve as-is. -/
theorem c1_policy_table (p : Policy) (hasSlash isDirectory : Bool)
    (urlPath : String) (urlQuery : Option String) :
    routeDecision p hasSlash isDirectory urlPath urlQuery =
      routeDecisionSpec p hasSlash isDirectory urlPath urlQuery := by
  cases p <;> cases hasSlash <;> cases isDirectory <;>
    simp [routeDecision, routeDecisionSpec, trailingSwitch, append_index_ne]

/-- C3 counterexample: under policy `always`, a path that is not a directory
and lacks a trailing slash is 301-redirected by the engine, not served
as-is as the claim states. -/
theorem c3_counterexample :
    routeDecision .always false false "/file.txt" none = .redirect "/file.txt/" 301 ∧
      routeDecision .always false false "/file.txt" none ≠ .serve "/file.txt" := by
  decide

/-- C3 amended: under policy `always`, any request path lacking a trailing
slash — directory or not — is redirected (301) to the slash-appended form
(query preserved), and any path ending in a slash is served as-is. -/
theorem c3_amended (hasSlash isDirectory : Bool) (urlPath : String)
    (urlQuery : Option String) :
    routeDecision .always hasSlash isDirectory urlPath urlQuery =
      if hasSlash then .serve urlPath
      else .redirect (urlPath ++ "/" ++ jsQuerySuffix urlQuery) 301 := by
  cases hasSlash <;> simp [routeDecision, trailingSwitch]

/-- C4 counterexample: a non-empty invalid policy string does not make the
runtime switch behave as `ignore` — it matches no case and leaves the
pathname unassigned, while `ignore` rewrites the directory to its index
file. -/
theorem c4_counterexample :
    trailingSwitchRaw (some "sometimes") false true "/d" none = (none, none) ∧
      trailingSwitchRaw (some "ignore") false true "/d" none =
        (none, some "/d/index.html") ∧
      trailingSwitchRaw (some "sometimes") false true "/d" none ≠
        trailingSwitchRaw (some "ignore") false true "/d" none := by
  decide

/-- C4 amended: a falsy policy value — absent (`undefined`) or the empty
string — makes the engine behave exactly as policy `ignore`; a non-empty
invalid value is rejected by the configuration schema before reaching the
server, and the switch itself would leave the pathname unassigned for it
rather than behave as `ignore`. -/
theorem c4_amended (hasSlash isDirectory : Bool) (urlPath : String)
    (urlQuery : Option String) :
    trailingSwitchRaw none hasSlash isDirectory urlPath urlQuery =
        trailingSwitchRaw (some "ignore") hasSlash isDirectory urlPath urlQuery ∧
      trailingSwitchRaw (some "") hasSlash isDirectory urlPath urlQuery =
        trailingSwitchRaw (some "ignore") hasSlash isDirectory urlPath urlQuery := by
  exact ⟨rfl, rfl⟩

/-- C8: the candidate filesystem path the listener resolves and probes is
the naive join of the client root with the request path, and a `".."`
segment makes it escape the configured client root: for client root
`/srv/app/client` and request path `/../x` the probed path is
`/srv/app/x`, which is not the root and not under it. -/
theorem c8_traversal_escape :
    resolvedCandidate "/srv/app/client" (fun s => s) "/../x" = "/srv/app/x" ∧
      strStarts "/srv/app/client/" "/srv/app/x" = false ∧
      "/srv/app/x" ≠ "/srv/app/client" := by
  decide

/-- C9: a TLS server is built exactly when both the certificate and the key
environment values are truthy; a read failure of either file propagates out
of construction (key first, then certificate) instead of falling back to
plain HTTP, and when either value is missing a plain HTTP server is
built. -/
theorem c9_tls_choice (e : TLSEnv) :
    ((jsTruthy e.certPath && jsTruthy e.keyPath) = false →
      chooseTransport e = Except.ok Transport.plain) ∧
    ((jsTruthy e.certPath && jsTruthy e.keyPath) = true →
      (∀ msg, e.readFile (e.keyPath.getD "") = Except.error msg →
        chooseTransport e = Except.error msg) ∧
      (∀ k msg, e.readFile (e.keyPath.getD "") = Except.ok k →
        e.readFile (e.certPath.getD "") = Except.error msg →
        chooseTransport e = Except.error msg) ∧
      (∀ k c, e.readFile (e.keyPath.getD "") = Except.ok k →
        e.readFile (e.certPath.getD "") = Except.ok c →
        chooseTransport e = Except.ok (Transport.https k c))) ∧
    (∀ k c, chooseTransport e = Except.ok (Transport.https k c) →
      (jsTruthy e.certPath && jsTruthy e.keyPath) = true) := by
  refine ⟨?_, ?_, ?_⟩
  · intro hb
    simp [chooseTransport, hb]
  · intro hb
    refine ⟨?_, ?_, ?_⟩
    · intro msg hr
      simp [chooseTransport, hb, hr]
    · intro k msg hk hc
      simp [chooseTransport, hb, hk, hc]
    · intro k c hk hc
      simp [chooseTransport, hb, hk, hc]
  · intro k c hok
    by_cases hb : (jsTruthy e.certPath && jsTruthy e.keyPath) = true
    · exact hb
    · rw [Bool.not_eq_true] at hb
      simp [chooseTransport, hb] at hok

/-- C9 witness: concrete instances of the three outcomes — both values
present and readable gives TLS, both present with an unreadable key aborts
with the read error, a missing certificate value gives plain HTTP. -/
theorem c9_witness :
    chooseTransport
        { certPath := some "/c", keyPath := some "/k", readFile := fun _ => .ok "PEM" } =
      Except.ok (Transport.https "PEM" "PEM") ∧
    chooseTransport
        { certPath := some "/c", keyPath := some "/k",
          readFile := fun _ => .error "ENOENT" } =
      Except.error "ENOENT" ∧
    chooseTransport
        { certPath := none, keyPath := some "/k", readFile := fun _ => .ok "PEM" } =
      Except.ok Transport.plain :=
  ⟨((c9_tls_choice _).2.1 (by decide)).2.2 "PEM" "PEM" rfl rfl,
   ((c9_tls_choice _).2.1 (by decide)).1 "ENOENT" rfl,
   (c9_tls_choice _).1 (by decide)⟩

/-- The redirect-installation trace contains no terminal action. -/
theorem policyActs_no_terminal (env : Env) (p0 : Option Policy) (url : String) :
    (policyActs env p0 url).countP isTerminalAct = 0 := by
  unfold policyActs
  cases redirOf env p0 url with
  | none => rfl
  | some x => cases x with | mk st loc => rfl

/-- Every member of the redirect-installation trace is a
`policyRedirect`. -/
theorem mem_policyActs (env : Env) (p0 : Option Policy) (url : String) (a : Act)
    (h : a ∈ policyActs env p0 url) : ∃ st loc, a = Act.policyRedirect st loc := by
  unfold policyActs at h
  cases hr : redirOf env p0 url with
  | none => rw [hr] at h; simp at h
  | some x =>
    cases x with
    | mk st loc =>
      rw [hr] at h
      simp at h
      exact ⟨st, loc, h⟩

/-- The stream's handlers take exactly one terminal action, whatever the
outcome. -/
theorem streamActs_one_terminal (env : Env) (uri : String) (d : Bool) (r : String) :
    (streamActs env uri d r).countP isTerminalAct = 1 := by
  cases h : env.send uri <;>
    simp [streamActs, h, List.countP_cons, isTerminalAct]

/-- C2 amended: for every request, the listener takes exactly one terminal
response action — a respond-and-end, a completed body stream, the directory
handler's 301-and-end, or one delegation to the rendering handler.  The
trailing-slash 301, however, is only an installation of status and header
on the response: it does not terminate handling, so the same request can
also stream a body or be delegated (see the counterexample). -/
theorem c2_single_terminal (env : Env) (p0 : Option Policy) (url? : Option String) :
    (listener env p0 url?).countP isTerminalAct = 1 := by
  cases url? with
  | none => rfl
  | some url =>
    cases hc : env.canon (finalPathname env p0 url) with
    | none =>
      simp [listener, hc, List.countP_append, policyActs_no_terminal,
        List.countP_cons, isTerminalAct]
    | some uri =>
      simp [listener, hc, List.countP_append, policyActs_no_terminal,
        streamActs_one_terminal]

/-- C2 counterexample: under policy `never`, a directory request with a
trailing slash has the 301 redirect installed on the response and the file
body streamed for the same request — two response-initiating actions, the
combination the claim rules out. -/
theorem c2_counterexample :
    listener (mkEnv true .fileOk idCanon) (some .never) (some "/docs/") =
        [Act.policyRedirect 301 "/docs", Act.sendFile "/docs/" false, Act.streamBody] ∧
      Act.policyRedirect 301 "/docs" ∈
        listener (mkEnv true .fileOk idCanon) (some .never) (some "/docs/") ∧
      Act.streamBody ∈
        listener (mkEnv true .fileOk idCanon) (some .never) (some "/docs/") := by
  decide

/-- C5 amended: whenever the canonicalization of the final pathname fails,
the listener responds 400 with body `"Bad request."` and neither consults
the streamer nor delegates to the rendering handler.  (The request target
`/%E0%A4%A` is not such a case: see the counterexample.) -/
theorem c5_canon_failure_400 (env : Env) (p0 : Option Policy) (url : String)
    (hc : env.canon (finalPathname env p0 url) = none) :
    listener env p0 (some url) =
        policyActs env p0 url ++ [Act.respond 400 "Bad request."] ∧
      (∀ uri d, Act.sendFile uri d ∉ listener env p0 (some url)) ∧
      Act.callHandler ∉ listener env p0 (some url) ∧
      Act.streamBody ∉ listener env p0 (some url) := by
  have h1 : listener env p0 (some url) =
      policyActs env p0 url ++ [Act.respond 400 "Bad request."] := by
    simp [listener, hc]
  refine ⟨h1, ?_, ?_, ?_⟩
  · intro uri d hmem
    rw [h1] at hmem
    rcases List.mem_append.mp hmem with hm | hm
    · rcases mem_policyActs _ _ _ _ hm with ⟨st, loc, he⟩
      simp at he
    · simp at hm
  · intro hmem
    rw [h1] at hmem
    rcases List.mem_append.mp hmem with hm | hm
    · rcases mem_policyActs _ _ _ _ hm with ⟨st, loc, he⟩
      simp at he
    · simp at hm
  · intro hmem
    rw [h1] at hmem
    rcases List.mem_append.mp hmem with hm | hm
    · rcases mem_policyActs _ _ _ _ hm with ⟨st, loc, he⟩
      simp at he
    · simp at hm

/-- C5 amended, witness: with a canonicalization that fails, the request is
never delegated to the rendering handler. -/
theorem c5_witness :
    Act.callHandler ∉
      listener (mkEnv false .miss (fun _ => none)) (some .ignore) (some "/x") :=
  (c5_canon_failure_400 (mkEnv false .miss (fun _ => none)) (some .ignore) "/x"
    rfl).2.2.1

/-- C5 counterexample: the request target `/%E0%A4%A` named by the claim
does canonicalize — `decodeURI(encodeURI(..))` round-trips it — so the
listener does attempt the file lookup for it and, on the resulting miss,
delegates to the rendering handler instead of responding 400. -/
theorem c5_counterexample :
    parsePathnameM "/%E0%A4%A" = some "/%E0%A4%A" ∧
      listener (mkEnv false .miss parsePathnameM) (some .ignore)
          (some "/%E0%A4%A") =
        [Act.sendFile "/%E0%A4%A" false, Act.callHandler] := by
  decide

/-- C6: when the stream serves a file, the immutable cache-control header is
attached (before the body streams: it precedes `streamBody` in the trace)
if and only if the canonical pathname starts with the configured
`/<assets-dir>/` prefix. -/
theorem c6_cache_header (env : Env) (uri : String) (d : Bool) (r : String)
    (hfile : env.send uri = SendOutcome.fileOk) :
    Act.setCacheControl ∈ streamActs env uri d r ↔
      strStarts ("/" ++ env.assets ++ "/") uri = true := by
  cases hs : strStarts ("/" ++ env.assets ++ "/") uri <;>
    simp [streamActs, hfile, isImmutableAsset, hs]

/-- C6 witness: a request under `/_astro/` receives the header and one
outside it does not. -/
theorem c6_witness :
    Act.setCacheControl ∈
        streamActs (mkEnv false .fileOk idCanon) "/_astro/app.js" false "/_astro/app.js" ∧
      Act.setCacheControl ∉
        streamActs (mkEnv false .fileOk idCanon) "/img/a.png" false "/img/a.png" :=
  ⟨(c6_cache_header (mkEnv false .fileOk idCanon) "/_astro/app.js" false
      "/_astro/app.js" rfl).mpr (by decide),
   fun hmem =>
    absurd ((c6_cache_header (mkEnv false .fileOk idCanon) "/img/a.png" false
      "/img/a.png" rfl).mp hmem) (by decide)⟩

/-- C7 amended: a stream error after a file was identified logs the error
and responds 500 with body `"Internal server error"`; an error with no file
identified (a miss) delegates once to the rendering handler with no
response emitted by the core, and a request with no url at all is delegated
directly — but the response object handed to the handler may already carry
a 301 status and `Location` header installed by the trailing-slash step
(see the counterexample). -/
theorem c7_error_dichotomy (env : Env) (uri : String) (d : Bool) (r : String)
    (p0 : Option Policy) :
    (env.send uri = SendOutcome.fileErr →
      streamActs env uri d r =
        [Act.sendFile uri d, Act.logError, Act.respond 500 "Internal server error"]) ∧
    (env.send uri = SendOutcome.miss →
      streamActs env uri d r = [Act.sendFile uri d, Act.callHandler]) ∧
    listener env p0 none = [Act.callHandler] := by
  refine ⟨?_, ?_, rfl⟩ <;> intro h <;> simp [streamActs, h]

/-- C7 amended, witness: the three cases at concrete inputs. -/
theorem c7_witness :
    streamActs (mkEnv false .fileErr idCanon) "/x" false "/x" =
        [Act.sendFile "/x" false, Act.logError,
          Act.respond 500 "Internal server error"] ∧
      streamActs (mkEnv false .miss idCanon) "/x" false "/x" =
        [Act.sendFile "/x" false, Act.callHandler] ∧
      listener (mkEnv false .miss idCanon) (some .ignore) none = [Act.callHandler] :=
  ⟨(c7_error_dichotomy (mkEnv false .fileErr idCanon) "/x" false "/x"
      (some .ignore)).1 rfl,
   (c7_error_dichotomy (mkEnv false .miss idCanon) "/x" false "/x"
      (some .ignore)).2.1 rfl,
   (c7_error_dichotomy (mkEnv false .miss idCanon) "/x" false "/x"
      (some .ignore)).2.2⟩

/-- C7 counterexample: on a miss under policy `always`, the rendering
handler is invoked on a response object that already carries status 301 —
not the original, unmodified response the claim promises. -/
theorem c7_counterexample :
    listener (mkEnv false .miss idCanon) (some .always) (some "/foo") =
        [Act.policyRedirect 301 "/foo/", Act.sendFile "/foo/" false,
          Act.callHandler] ∧
      statusAtHandler
          (listener (mkEnv false .miss idCanon) (some .always) (some "/foo")) =
        some 301 := by
  decide

/-- A member of a `takeWhile` satisfies the predicate. -/
theorem mem_takeWhile_sat {p : Char → Bool} :
    ∀ {l : List Char} {a : Char}, a ∈ l.takeWhile p → p a = true := by
  intro l
  induction l with
  | nil => intro a h; simp at h
  | cons c t ih =>
    intro a h
    rw [List.takeWhile_cons] at h
    cases hc : p c with
    | false => rw [hc] at h; simp at h
    | true =>
      rw [hc] at h
      simp at h
      rcases h with h | h
      · rw [h]; exact hc
      · exact ih h

/-- The question mark never survives the pathname cut. -/
theorem urlPathnameOf_no_qmark (s : String) :
    ('?' : Char) ∉ (urlPathnameOf s).toList := by
  intro hm
  have h := mem_takeWhile_sat (p := fun c => !(c == '?' || c == '#')) hm
  simp at h

/-- Every code point of a character is below the unicode bound. -/
theorem char_toNat_lt (c : Char) : c.toNat < 1114112 := by
  have h := c.valid
  rcases h with h | ⟨h1, h2⟩
  · exact Nat.lt_trans h (by decide)
  · exact h2

/-- The bytes of the UTF-8 encoding of a code point below the unicode bound
are bytes. -/
theorem utf8Bytes_lt_256 (n : Nat) (hn : n < 1114112) :
    ∀ b ∈ utf8Bytes n, b < 256 := by
  intro b hb
  unfold utf8Bytes at hb
  split at hb
  · simp at hb; omega
  · split at hb
    · simp at hb
      have hd : n / 64 < 32 := Nat.div_lt_of_lt_mul (by omega)
      have hm : n % 64 < 64 := Nat.mod_lt _ (by omega)
      rcases hb with hb | hb <;> omega
    · split at hb
      · simp at hb
        have hd : n / 4096 < 16 := Nat.div_lt_of_lt_mul (by omega)
        have hm1 : n / 64 % 64 < 64 := Nat.mod_lt _ (by omega)
        have hm : n % 64 < 64 := Nat.mod_lt _ (by omega)
        rcases hb with hb | hb | hb <;> omega
      · simp at hb
        have hd : n / 262144 < 5 := Nat.div_lt_of_lt_mul (by omega)
        have hm2 : n / 4096 % 64 < 64 := Nat.mod_lt _ (by omega)
        have hm1 : n / 64 % 64 < 64 := Nat.mod_lt _ (by omega)
        have hm : n % 64 < 64 := Nat.mod_lt _ (by omega)
        rcases hb with hb | hb | hb | hb <;> omega

/-- A hexadecimal digit character is never the question mark. -/
theorem hexDigitChar_ne_qmark (n : Nat) (h : n < 16) : hexDigitChar n ≠ '?' := by
  interval_cases n <;> decide

/-- No character of a percent escape of a byte is the question mark. -/
theorem mem_pctByte_ne_qmark (b : Nat) (hb : b < 256) :
    ∀ c ∈ pctByte b, c ≠ '?' := by
  intro c hc
  simp [pctByte] at hc
  rcases hc with h | h | h
  · rw [h]; decide
  · rw [h]; exact hexDigitChar_ne_qmark _ (Nat.div_lt_of_lt_mul (by omega))
  · rw [h]; exact hexDigitChar_ne_qmark _ (Nat.mod_lt _ (by omega))

/-- Encoding one character that is not the question mark never emits the
question mark. -/
theorem encChar_no_qmark (c : Char) (hc : c ≠ '?') : ∀ a ∈ encChar c, a ≠ '?' := by
  intro a ha
  unfold encChar at ha
  split at ha
  · simp at ha; rw [ha]; exact hc
  · rcases List.mem_flatMap.mp ha with ⟨b, hb, hpb⟩
    exact mem_pctByte_ne_qmark b (utf8Bytes_lt_256 _ (char_toNat_lt c) b hb) a hpb

/-- The encoder preserves freedom from the question mark. -/
theorem encList_no_qmark (l : List Char) (h : ('?' : Char) ∉ l) :
    ('?' : Char) ∉ encList l := by
  intro hmem
  rcases List.mem_flatMap.mp hmem with ⟨c, hc, ha⟩
  exact encChar_no_qmark c (fun he => h (he ▸ hc)) _ ha rfl


/-- The remainder returned by `contByte` is a suffix of its input. -/
theorem contByte_rest {l : List Char} {v : Nat} {rem : List Char}
    (h : contByte l = some (v, rem)) : ∀ a ∈ rem, a ∈ l := by
  unfold contByte at h
  split at h
  · split at h
    · split at h
      · split at h
        · cases h
          intro a ha
          simp [ha]
        · exact absurd h (by simp)
      · exact absurd h (by simp)
    · exact absurd h (by simp)
  · exact absurd h (by simp)

/-- What one decode step emits is either taken from its input or is a
character outside the preserved set, and what it leaves over is part of its
input. -/
theorem decStep_emit {l em rem : List Char} (h : decStep l = some (em, rem)) :
    (∀ a ∈ em, a ∈ l ∨ uriReservedHash a = false) ∧ (∀ a ∈ rem, a ∈ l) := by
  unfold decStep at h
  split at h
  · exact absurd h (by simp)
  · split at h
    · -- leading percent sign
      split at h
      · -- two hex digits follow
        split at h
        · -- both digits valid
          split at h
          · -- ASCII byte
            split at h
            · -- preserved: the original three characters are kept
              cases h
              refine ⟨?_, ?_⟩
              · intro x hx
                simp at hx
                rcases hx with hx | hx | hx <;> (left; simp [hx])
              · intro x hx
                simp [hx]
            · -- decoded to a non-preserved character
              rename_i hres
              cases h
              refine ⟨?_, ?_⟩
              · intro x hx
                simp at hx
                right
                simpa [hx] using hres
              · intro x hx
                simp [hx]
          · -- two-byte sequence
            split at h
            · split at h
              · rename_i hcb
                split at h
                · exact absurd h (by simp)
                · rename_i hres
                  cases h
                  refine ⟨?_, ?_⟩
                  · intro x hx
                    simp at hx
                    right
                    simpa [hx] using hres
                  · intro x hx
                    have := contByte_rest hcb x hx
                    simp [this]
              · exact absurd h (by simp)
            · -- three-byte sequence
              split at h
              · split at h
                · rename_i hcb1
                  split at h
                  · rename_i hcb2
                    split at h
                    · exact absurd h (by simp)
                    · split at h
                      · exact absurd h (by simp)
                      · rename_i hres
                        cases h
                        refine ⟨?_, ?_⟩
                        · intro x hx
                          simp at hx
                          right
                          simpa [hx] using hres
                        · intro x hx
                          have hx1 := contByte_rest hcb2 x hx
                          have hx2 := contByte_rest hcb1 x hx1
                          simp [hx2]
                  · exact absurd h (by simp)
                · exact absurd h (by simp)
              · -- four-byte sequence
                split at h
                · split at h
                  · rename_i hcb1
                    split at h
                    · rename_i hcb2
                      split at h
                      · rename_i hcb3
                        split at h
                        · exact absurd h (by simp)
                        · split at h
                          · exact absurd h (by simp)
                          · rename_i hres
                            cases h
                            refine ⟨?_, ?_⟩
                            · intro x hx
                              simp at hx
                              right
                              simpa [hx] using hres
                            · intro x hx
                              have hx1 := contByte_rest hcb3 x hx
                              have hx2 := contByte_rest hcb2 x hx1
                              have hx3 := contByte_rest hcb1 x hx2
                              simp [hx3]
                      · exact absurd h (by simp)
                    · exact absurd h (by simp)
                  · exact absurd h (by simp)
                · exact absurd h (by simp)
        · exact absurd h (by simp)
      · exact absurd h (by simp)
    · -- plain character
      cases h
      refine ⟨?_, ?_⟩
      · intro x hx
        simp at hx
        left
        simp [hx]
      · intro x hx
        simp [hx]


/-- The decoder preserves freedom from the question mark: the question mark
is in the preserved set, so it can only ever be emitted verbatim from the
input. -/
theorem decList_no_qmark :
    ∀ (fuel : Nat) (l : List Char), ('?' : Char) ∉ l →
      ∀ out, decList fuel l = some out → ('?' : Char) ∉ out := by
  intro fuel
  induction fuel with
  | zero =>
    intro l hl out h
    cases l with
    | nil =>
      cases h
      simp
    | cons c t => exact absurd h (by simp [decList])
  | succ n ih =>
    intro l hl out h
    cases l with
    | nil =>
      cases h
      simp
    | cons c t =>
      rw [show decList (n + 1) (c :: t) =
          match decStep (c :: t) with
          | some (em, rest) => (decList n rest).map (fun tail => em ++ tail)
          | none => none from rfl] at h
      cases hs : decStep (c :: t) with
      | none =>
        rw [hs] at h
        exact absurd h (by simp)
      | some pr =>
        obtain ⟨em, rest⟩ := pr
        rw [hs] at h
        dsimp only at h
        cases hd : decList n rest with
        | none =>
          rw [hd] at h
          exact absurd h (by simp)
        | some tail =>
          rw [hd] at h
          simp at h
          obtain ⟨hem, hrest⟩ := decStep_emit hs
          have h1 : ('?' : Char) ∉ rest := fun hm => hl (hrest _ hm)
          have h2 := ih rest h1 tail hd
          rw [← h]
          intro hm
          rcases List.mem_append.mp hm with hm | hm
          · rcases hem _ hm with hin | hres
            · exact hl hin
            · exact absurd hres (by decide)
          · exact h2 hm

/-- The full canonicalization never returns a pathname containing a
question mark. -/
theorem parsePathnameM_no_qmark (p : String) (r : String)
    (h : parsePathnameM p = some r) : ('?' : Char) ∉ r.toList := by
  unfold parsePathnameM at h
  cases hd : decList (encList (urlPathnameOf p).toList).length
      (encList (urlPathnameOf p).toList) with
  | none =>
    rw [hd] at h
    exact absurd h (by simp)
  | some out =>
    rw [hd] at h
    simp at h
    have henc := encList_no_qmark _ (urlPathnameOf_no_qmark p)
    have hout := decList_no_qmark _ _ henc out hd
    rw [← h]
    exact hout

/-- A `sendFile` action in the stream trace records exactly the uri the
stream was created on. -/
theorem sendFile_mem_streamActs (env : Env) (u0 : String) (d0 : Bool) (r : String)
    (uri : String) (d : Bool)
    (h : Act.sendFile uri d ∈ streamActs env u0 d0 r) : uri = u0 := by
  unfold streamActs at h
  rcases List.mem_cons.mp h with he | hm
  · cases he
    rfl
  · exfalso
    cases ho : env.send u0 <;> rw [ho] at hm <;> simp at hm

/-- C10: with the platform canonicalization in place, the uri handed to the
streamer is derived by URL-pathname extraction and decode/encode, so it
contains no question mark and no query component — even though the listener
re-appends the query string to the pathname before canonicalizing it. -/
theorem c10_no_query_in_streamed_uri (env : Env) (p0 : Option Policy)
    (url uri : String) (d : Bool) (hcanon : env.canon = parsePathnameM)
    (hmem : Act.sendFile uri d ∈ listener env p0 (some url)) :
    ('?' : Char) ∉ uri.toList := by
  unfold listener at hmem
  dsimp only at hmem
  rw [hcanon] at hmem
  cases hc : parsePathnameM (finalPathname env p0 url) with
  | none =>
    rw [hc] at hmem
    exfalso
    rcases List.mem_append.mp hmem with hm | hm
    · rcases mem_policyActs _ _ _ _ hm with ⟨st, loc, he⟩
      simp at he
    · simp at hm
  | some u0 =>
    rw [hc] at hmem
    rcases List.mem_append.mp hmem with hm | hm
    · exfalso
      rcases mem_policyActs _ _ _ _ hm with ⟨st, loc, he⟩
      simp at he
    · have he := sendFile_mem_streamActs _ _ _ _ _ _ hm
      rw [he]
      exact parsePathnameM_no_qmark _ _ hc

/-- C10 witness: for the request `/a?b` the canonical uri the streamer
receives is `/a`, which indeed contains no question mark. -/
theorem c10_witness : ('?' : Char) ∉ ("/a" : String).toList :=
  c10_no_query_in_streamed_uri (mkEnv false .miss parsePathnameM) (some .ignore)
    "/a?b" "/a" false rfl (by decide)
